import Mathlib

/-!
Verification of the rule-evaluation engine of the `company` repository.

The Python sources (`utils.py`, `rule_extractor.py`, `main.py`,
`excel_analyzer_control.py`, `runner.py`) are shallowly embedded below:
pure functions become Lean functions, cell content is modelled as strings,
Python floats are modelled as rationals (`ℚ`), Python exceptions as
`Except`/`Option` results, and the two recursive depth-first traversals of
`RuleManager` are given an explicit fuel parameter (a modelling artifact:
`PyOut.fuelOut` is never produced for the fuel bounds chosen, and no theorem
depends on the fuel-exhaustion branch).
-/

namespace CompanyRepo

/-! ## Python primitive helpers -/

/-- Strip a given character from both ends of a char list
(model of Python `str.strip('%')`). -/
def stripCharL (ch : Char) (cs : List Char) : List Char :=
  ((cs.dropWhile (fun c => c = ch)).reverse.dropWhile (fun c => c = ch)).reverse

/-- Model of Python `str.strip('%')`. -/
def pyStripPct (s : String) : String :=
  String.mk (stripCharL '%' s.toList)

/-- Strip whitespace from both ends of a char list. -/
def stripWsL (cs : List Char) : List Char :=
  ((cs.dropWhile Char.isWhitespace).reverse.dropWhile Char.isWhitespace).reverse

/-- Model of Python `str.strip()`. -/
def pyStripWs (s : String) : String :=
  String.mk (stripWsL s.toList)

/-- Decimal digit test, written on the character code. -/
def isDigitCh (c : Char) : Bool := 48 ≤ c.toNat && c.toNat ≤ 57

/-- Decimal value of a digit-character list, most significant first. -/
def parseDigits (cs : List Char) : Nat :=
  cs.foldl (fun a c => a * 10 + (c.toNat - 48)) 0

/-- Model of Python `int(s)`: optional surrounding whitespace, optional sign,
then a nonempty run of decimal digits; anything else raises `ValueError`
(modelled as `none`). -/
def pyIntParse (s : String) : Option Int :=
  match stripWsL s.toList with
  | '-' :: ds =>
    if !ds.isEmpty && ds.all isDigitCh then some (-(parseDigits ds : Int)) else none
  | '+' :: ds =>
    if !ds.isEmpty && ds.all isDigitCh then some (parseDigits ds : Int) else none
  | ds =>
    if !ds.isEmpty && ds.all isDigitCh then some (parseDigits ds : Int) else none

/-- Model of Python `float(s)` restricted to plain decimal literals
(optional sign, integer part, optional fractional part). Exponent notation
and the special values are outside the modelled input space; unparseable
strings raise `ValueError` (modelled as `none`). -/
def pyFloatParse (s : String) : Option ℚ :=
  let cs := stripWsL s.toList
  let sb : Int × List Char :=
    match cs with
    | '-' :: r => (-1, r)
    | '+' :: r => (1, r)
    | r => (1, r)
  let ip := sb.2.takeWhile isDigitCh
  let rest := sb.2.dropWhile isDigitCh
  match rest with
  | [] => if ip.isEmpty then none else some (Rat.divInt (sb.1 * (parseDigits ip : Int)) 1)
  | '.' :: fp =>
    if fp.all isDigitCh && (!ip.isEmpty || !fp.isEmpty) then
      some (Rat.divInt (sb.1 * ((parseDigits ip : Int) * (10 : Int) ^ fp.length + (parseDigits fp : Int)))
        ((10 : Int) ^ fp.length))
    else none
  | _ => none

/-- Python list indexing `l[i]`: negative indices count from the end;
out-of-range access raises `IndexError` (modelled as `none`). -/
def pyGet {α : Type} (l : List α) (i : Int) : Option α :=
  if 0 ≤ i then l.get? i.toNat
  else
    let j := (l.length : Int) + i
    if 0 ≤ j then l.get? j.toNat else none

/-- Model of Python substring containment `needle in hay`. -/
def containsSub (hay needle : String) : Bool :=
  hay.toList.tails.any (fun t => needle.toList.isPrefixOf t)

/-- Worker for `pySplit`: fuel-structural scan collecting the current chunk in
`acc` (reversed); the fuel is at least the input length plus one, so the fuel
zero branch is unreachable. -/
def splitGo (sep : List Char) : Nat → List Char → List Char → List (List Char)
  | 0, _, acc => [acc.reverse]
  | _ + 1, [], acc => [acc.reverse]
  | f + 1, c :: cs, acc =>
    if sep.isPrefixOf (c :: cs) then
      acc.reverse :: splitGo sep f (List.drop (sep.length - 1) cs) []
    else splitGo sep f cs (c :: acc)

/-- Model of Python `s.split(sep)` for a fixed nonempty separator:
leftmost, non-overlapping occurrences. -/
def pySplit (s sep : String) : List String :=
  (splitGo sep.toList (s.toList.length + 1) s.toList []).map (fun l => String.mk l)

/-! ## `utils.py` -/

/-- `utils.col_letter_to_index`: fold the letters with
`index = index * 26 + (ord(char.upper()) - ord('A') + 1)` and subtract one. -/
def col_letter_to_index (letter : String) : Int :=
  (letter.toList.foldl (fun idx c => idx * 26 + ((c.toUpper.toNat : Int) - 65 + 1)) 0) - 1

/-- `utils.parse_result_column`: extract the column letters between `$` and `*`
in a rule-table `Result` string such as `PN($E*)`. -/
def parse_result_column (result : String) : Option String :=
  let cs := result.toList
  if cs.isEmpty || !cs.any (fun c => c = '$') || !cs.any (fun c => c = '*') then none
  else
    match cs.findIdx? (fun c => c = '$'), cs.findIdx? (fun c => c = '*') with
    | some d, some st =>
      let start := d + 1
      if st ≤ start then none
      else
        let col_letters := (cs.drop start).take (st - start)
        if col_letters.all Char.isAlpha then some (String.mk col_letters) else none
    | _, _ => none

/-! ## The cell locator (`ExcelAnalyzerControl._parse_cell_position`) -/

/-- Uppercase A–Z test, written on the character code. -/
def isUpperAZ (c : Char) : Bool := 65 ≤ c.toNat && c.toNat ≤ 90

/-- Digit 1–9 test, written on the character code. -/
def isDigit19 (c : Char) : Bool := 49 ≤ c.toNat && c.toNat ≤ 57

/-- Column fold used by `openpyxl.utils.column_index_from_string` on an
already-uppercase letter run (one-based result). -/
def colFold (cs : List Char) : Int :=
  cs.foldl (fun idx c => idx * 26 + ((c.toNat : Int) - 65 + 1)) 0

/-- List-level worker for `_parse_cell_position`: match
`^([A-Z]+)([1-9][0-9]*)$`, convert the letter group with the column fold
minus one and the digit group with `int(...) - 1`.  Returns `(col, row)` in
the source's order; a failed match raises `ValueError` (modelled as `none`). -/
def parseAddrL (cs : List Char) : Option (Int × Int) :=
  let letters := cs.takeWhile isUpperAZ
  let rest := cs.dropWhile isUpperAZ
  match letters, rest with
  | [], _ => none
  | _ :: _, [] => none
  | _ :: _, d :: ds =>
    if isDigit19 d && ds.all isDigitCh then
      some (colFold letters - 1, (parseDigits (d :: ds) : Int) - 1)
    else none

/-- `ExcelAnalyzerControl._parse_cell_position` (also the cell parsing inside
`DataManager.get_cell_value`): full-regex split of an address into its letter
group and digit group. -/
def parse_cell_position (position : String) : Option (Int × Int) :=
  parseAddrL position.toList

/-! ### Helper lemmas for the locator -/

theorem takeWhile_append_all {α : Type} (p : α → Bool) :
    ∀ (l1 l2 : List α), (∀ c ∈ l1, p c = true) →
      (l1 ++ l2).takeWhile p = l1 ++ l2.takeWhile p := by
  intro l1
  induction l1 with
  | nil => intro l2 _; simp
  | cons a l ih =>
    intro l2 h
    simp only [List.cons_append, List.takeWhile]
    rw [h a (by simp)]
    simp only [List.cons_append, List.cons.injEq, true_and]
    exact ih l2 (fun c hc => h c (by simp [hc]))

theorem dropWhile_append_all {α : Type} (p : α → Bool) :
    ∀ (l1 l2 : List α), (∀ c ∈ l1, p c = true) →
      (l1 ++ l2).dropWhile p = l2.dropWhile p := by
  intro l1
  induction l1 with
  | nil => intro l2 _; simp
  | cons a l ih =>
    intro l2 h
    simp only [List.cons_append, List.dropWhile]
    rw [h a (by simp)]
    exact ih l2 (fun c hc => h c (by simp [hc]))

theorem takeWhile_head_false {α : Type} (p : α → Bool) (d : α) (ds : List α)
    (h : p d = false) : (d :: ds).takeWhile p = [] := by
  simp [List.takeWhile, h]

theorem dropWhile_head_false {α : Type} (p : α → Bool) (d : α) (ds : List α)
    (h : p d = false) : (d :: ds).dropWhile p = d :: ds := by
  simp [List.dropWhile, h]

theorem toUpper_of_upper (c : Char) (h1 : 65 ≤ c.toNat) (h2 : c.toNat ≤ 90) :
    c.toUpper = c := by
  unfold Char.toUpper
  rw [if_neg]
  omega

theorem foldl_colFold_toUpper :
    ∀ (l : List Char) (a : Int), (∀ c ∈ l, isUpperAZ c = true) →
      l.foldl (fun idx c => idx * 26 + ((c.toUpper.toNat : Int) - 65 + 1)) a =
        l.foldl (fun idx c => idx * 26 + ((c.toNat : Int) - 65 + 1)) a := by
  intro l
  induction l with
  | nil => intro a _; rfl
  | cons c l ih =>
    intro a h
    have hc : isUpperAZ c = true := h c (by simp)
    have hc1 : 65 ≤ c.toNat ∧ c.toNat ≤ 90 := by
      simpa [isUpperAZ, Bool.and_eq_true, decide_eq_true_eq] using hc
    simp only [List.foldl_cons, toUpper_of_upper c hc1.1 hc1.2]
    exact ih _ (fun x hx => h x (by simp [hx]))

theorem isUpperAZ_false_of_digit (c : Char) (h : isDigitCh c = true) :
    isUpperAZ c = false := by
  have hle : c.toNat ≤ 57 := by
    unfold isDigitCh at h
    simp only [Bool.and_eq_true, decide_eq_true_eq] at h
    omega
  unfold isUpperAZ
  simp only [Bool.and_eq_false_iff]
  left
  simp only [decide_eq_false_iff_not]
  omega

theorem isDigit_of_isDigit19 (c : Char) (h : isDigit19 c = true) : isDigitCh c = true := by
  unfold isDigit19 at h
  unfold isDigitCh
  simp only [Bool.and_eq_true, decide_eq_true_eq] at h ⊢
  omega

/-- Claim C1: for every address consisting of one to three uppercase letters
followed by a nonzero-leading digit run, the cell locator splits the address
into the entire letter group and the entire digit group, maps the letter
group exactly as `utils.col_letter_to_index` (the `col*26 + (letter-'A'+1)`
fold minus one) and the digit group to its value minus one, and in
particular maps `A1`, `Z1`, `AA1` and `AB10` to `(0,0)`, `(25,0)`, `(26,0)`
and `(27,9)` (column index first, row index second, as in the source). -/
theorem locator_maps_full_letter_and_digit_groups :
    (∀ (letters ds : List Char),
      letters ≠ [] → letters.length ≤ 3 →
      (∀ c ∈ letters, isUpperAZ c = true) →
      (match ds with
        | [] => False
        | d :: ds' => isDigit19 d = true ∧ ∀ c ∈ ds', isDigitCh c = true) →
      parse_cell_position (String.mk (letters ++ ds)) =
        some (col_letter_to_index (String.mk letters), (parseDigits ds : Int) - 1))
    ∧ parse_cell_position "A1" = some (0, 0)
    ∧ parse_cell_position "Z1" = some (25, 0)
    ∧ parse_cell_position "AA1" = some (26, 0)
    ∧ parse_cell_position "AB10" = some (27, 9) := by
  refine ⟨?_, by decide, by decide, by decide, by decide⟩
  intro letters ds hne _hlen hup hds
  match ds, hds with
  | d :: ds', ⟨hd, hds'⟩ =>
    have hddig : isDigitCh d = true := isDigit_of_isDigit19 d hd
    have hall : ds'.all isDigitCh = true := by
      simp only [List.all_eq_true]
      intro c hc
      exact hds' c hc
    unfold parse_cell_position parseAddrL
    have h1 : (String.mk (letters ++ d :: ds')).toList = letters ++ d :: ds' := rfl
    rw [h1]
    rw [takeWhile_append_all isUpperAZ letters (d :: ds') hup,
        dropWhile_append_all isUpperAZ letters (d :: ds') hup]
    rw [takeWhile_head_false isUpperAZ d ds' (isUpperAZ_false_of_digit d hddig),
        dropWhile_head_false isUpperAZ d ds' (isUpperAZ_false_of_digit d hddig)]
    have h2 : letters ++ ([] : List Char) = letters := by simp
    rw [h2]
    match letters, hne with
    | l0 :: ltl, _ =>
      simp only [hd, hall, Bool.and_self, if_pos]
      have h3 : colFold (l0 :: ltl) - 1 = col_letter_to_index (String.mk (l0 :: ltl)) := by
        unfold col_letter_to_index colFold
        have h4 : (String.mk (l0 :: ltl)).toList = l0 :: ltl := rfl
        rw [h4, foldl_colFold_toUpper (l0 :: ltl) 0 hup]
      rw [h3]

/-- Witness for claim C1's theorem: the general part applied to the concrete
address `AB10`. -/
theorem locator_maps_full_letter_and_digit_groups_witness :
    parse_cell_position (String.mk (['A', 'B'] ++ ['1', '0'])) =
      some (col_letter_to_index (String.mk ['A', 'B']), (parseDigits ['1', '0'] : Int) - 1) :=
  locator_maps_full_letter_and_digit_groups.1 ['A', 'B'] ['1', '0']
    (by decide) (by decide) (by decide) (by decide)

/-! ## `rule_extractor.py` and `main.py` data model

A sheet is a row-major grid of string cells (the list version produced by
`ExcelAnalyzer.load_excel_data`, header row included).  A result record's
`result` field is heterogeneous in Python (`None`, a cell string, the
f-string `f'{value}%'`, or a list of strings); it is modelled by the tagged
type `ResVal`, where `ResVal.pct v` stands for the string `f'{v}%'`. -/

/-- The heterogeneous `result` field of a record built by `rule_extractor`. -/
inductive ResVal where
  | null : ResVal
  | s (v : String) : ResVal
  | pct (v : ℚ) : ResVal
  | lst (l : List String) : ResVal
deriving DecidableEq

/-- One result dictionary of `rule_extractor` (keys `description`, `result`,
`comments`, `optimization_plan`). -/
structure Record where
  description : String
  result : ResVal
  comments : String
  optimization_plan : String
deriving DecidableEq

/-- One rule-table row as consumed by `extract_rule_data` (keys `Sheet`,
`Description`, `Location`, `Comments`, `Optimization plan`, `Rule`,
`Result`). -/
structure RuleRow where
  Sheet : String
  Description : String
  Location : String
  Comments : String
  OptimizationPlan : String
  Rule : String
  Result : String
deriving DecidableEq

/-- Lexicographic comparison of `(value, row-index)` pairs: Python's tuple
ordering used by `values.sort()` in `extract_top_n_values`. -/
def pairLe (a b : ℚ × Nat) : Bool :=
  decide (a.1 < b.1) || (decide (a.1 = b.1) && decide (a.2 ≤ b.2))

/-- Comparator for `values.sort(reverse=reverse)`.  All pairs carry distinct
row indices, so Python's stable sort coincides with sorting by the tuple
order (flipped when `reverse` is set). -/
def sortLe (reverse : Bool) (a b : ℚ × Nat) : Bool :=
  if reverse then pairLe b a else pairLe a b

/-- The `values` accumulation loop of `extract_top_n_values`: pair each
parseable value with its sheet row index (enumeration starts at 1, after the
header row); rows whose value cell is missing (`IndexError`) or unparseable
(`ValueError`) are skipped. -/
def collectVals (vIdx : Int) : List (List String) → Nat → List (ℚ × Nat)
  | [], _ => []
  | row :: rest, i =>
    match (pyGet row vIdx).bind (fun cell => pyFloatParse (pyStripPct cell)) with
    | some v => (v, i) :: collectVals vIdx rest (i + 1)
    | none => collectVals vIdx rest (i + 1)

/-- The result loop of `extract_top_n_values`: for each selected pair, fetch
the key column cell of the same row; missing cells (`IndexError`) and falsy
(empty) cells are skipped. -/
def keysOf (sheet_data : List (List String)) (tIdx : Int) (ps : List (ℚ × Nat)) :
    List String :=
  ps.filterMap (fun p =>
    match (pyGet sheet_data (p.2 : Int)).bind (fun row => pyGet row tIdx) with
    | none => none
    | some val => if val = "" then none else some val)

/-- `rule_extractor.extract_top_n_values`. -/
def extract_top_n_values (sheet_data : List (List String)) (value_col target_col : String)
    (n : Nat) (reverse : Bool) : List String :=
  let value_col_idx := col_letter_to_index value_col
  let target_col_idx := col_letter_to_index target_col
  let values := collectVals value_col_idx (sheet_data.drop 1) 1
  let sorted := values.mergeSort (sortLe reverse)
  keysOf sheet_data target_col_idx (sorted.take n)

/-- The protected body of `extract_kpi_rule` (everything inside its
`try`/`except (ValueError, IndexError)`), as a function of the fetched cell:
a missing or unparseable cell yields the `数据无效` record, otherwise the
value is bucketed at 80 and 120 against the `<br>`-separated comment and
plan lists. -/
def kpiFromCell (cell : Option String) (comments optimization_plan : String) : Record :=
  match cell.bind (fun c => pyFloatParse (pyStripPct c)) with
  | none => ⟨"Inventory efficiency", .null, "数据无效", ""⟩
  | some value =>
    let comment_list := (pySplit comments "<br>").map pyStripWs
    let plan_list := (pySplit optimization_plan "<br>").map pyStripWs
    let idx := if value < 80 then 0 else if value ≤ 120 then 1 else 2
    ⟨"Inventory efficiency", .pct value,
      comment_list.getD idx "", plan_list.getD idx ""⟩

/-- `rule_extractor.extract_kpi_rule`.  The column is taken from
`location[0]` only and the row from `int(location[1:])`; both computations
happen before the `try` block, so an empty location (`IndexError`) or a
non-numeric `location[1:]` (`ValueError`) escapes the function
(`Except.error`). -/
def extract_kpi_rule (sheet_data : List (List String))
    (location comments optimization_plan : String) : Except String Record :=
  match location.toList with
  | [] => .error "string index out of range"
  | c0 :: rest =>
    let col := col_letter_to_index (String.mk [c0])
    match pyIntParse (String.mk rest) with
    | none => .error ("invalid literal for int() with base 10: " ++ String.mk rest)
    | some r =>
      .ok (kpiFromCell ((pyGet sheet_data (r - 1)).bind (fun rw => pyGet rw col))
        comments optimization_plan)

/-- The direct-cell branch of `extract_rule_data` (taken when the `Rule`
field is falsy).  Here the whole address computation sits inside
`try ... except (ValueError, IndexError)`, so any failure yields the
`位置无效` record. -/
def direct_cell_read (sheet_data : List (List String)) (rule_row : RuleRow) : Record :=
  match rule_row.Location.toList with
  | [] => ⟨rule_row.Description, .null, "位置无效", ""⟩
  | c0 :: rest =>
    match pyIntParse (String.mk rest) with
    | none => ⟨rule_row.Description, .null, "位置无效", ""⟩
    | some r =>
      match (pyGet sheet_data (r - 1)).bind
          (fun rw => pyGet rw (col_letter_to_index (String.mk [c0]))) with
      | none => ⟨rule_row.Description, .null, "位置无效", ""⟩
      | some cell => ⟨rule_row.Description, .s cell, rule_row.Comments, rule_row.OptimizationPlan⟩

/-- `rule_text.split('列')[0].strip()`: the column letters preceding the
character `列` in a rule text. -/
def colBeforeLie (rule_text : String) : String :=
  pyStripWs ((pySplit rule_text "列").headD "")

/-- `rule_extractor.extract_rule_data`: dispatch one rule row against the
loaded sheets.  Uncaught exceptions (only possible inside
`extract_kpi_rule`) propagate as `Except.error`. -/
def extract_rule_data (rule_row : RuleRow) (data_dict : List (String × List (List String))) :
    Except String Record :=
  match data_dict.lookup rule_row.Sheet with
  | none => .ok ⟨rule_row.Description, .null, "工作表不存在", ""⟩
  | some sheet_data =>
    if rule_row.Description = "Inventory efficiency" then
      extract_kpi_rule sheet_data rule_row.Location rule_row.Comments rule_row.OptimizationPlan
    else if rule_row.Rule = "" then
      .ok (direct_cell_read sheet_data rule_row)
    else
      match parse_result_column rule_row.Result with
      | none => .ok ⟨rule_row.Description, .null, "Result格式无效", ""⟩
      | some target_col =>
        let rt := rule_row.Rule
        let res :=
          if containsSub rt "最低的5个料号" then
            some (extract_top_n_values sheet_data "AS" target_col 5 false)
          else if containsSub rt "最高的5个料号" then
            some (extract_top_n_values sheet_data "AS" target_col 5 true)
          else if containsSub rt "最大的三个料号" then
            some (extract_top_n_values sheet_data (colBeforeLie rt) target_col 3 true)
          else if containsSub rt "天数最多的三条" then
            some (extract_top_n_values sheet_data "D" target_col 3 true)
          else if containsSub rt "AO列数值最大的三个料号" then
            some (extract_top_n_values sheet_data "AO" target_col 3 true)
          else if containsSub rt "最大" && !(containsSub rt "三个" || containsSub rt "5个") then
            some (extract_top_n_values sheet_data (colBeforeLie rt) target_col 1 true)
          else none
        match res with
        | none => .ok ⟨rule_row.Description, .null, "未知的规则类型", ""⟩
        | some result =>
          .ok ⟨rule_row.Description,
            (if result.length = 1 then .s (result.headD "") else .lst result),
            rule_row.Comments, rule_row.OptimizationPlan⟩

/-- The record `ExcelAnalyzer.process_rules` appends when
`extract_rule_data` raises: description plus `处理失败: <message>`. -/
def failedRecord (rule : RuleRow) (e : String) : Record :=
  ⟨rule.Description, .null, "处理失败: " ++ e, ""⟩

/-- `ExcelAnalyzer.process_rules`: `none` models the early `return False`
when no rules or no data are loaded (in which case `self.results` stays
unset); otherwise one record per rule, exceptions downgraded per rule. -/
def process_rules (rules : List RuleRow) (data_dict : List (String × List (List String))) :
    Option (List Record) :=
  if rules.isEmpty || data_dict.isEmpty then none
  else
    some (rules.map (fun rule =>
      match extract_rule_data rule data_dict with
      | .ok r => r
      | .error e => failedRecord rule e))

/-- `ExcelAnalyzer.get_results`: the stored results, or `[]` when unset. -/
def get_results (results : Option (List Record)) : List Record :=
  results.getD []

/-! ### Sorting lemmas for the top-N extraction -/

theorem pairLe_iff (a b : ℚ × Nat) :
    pairLe a b = true ↔ (a.1 < b.1 ∨ (a.1 = b.1 ∧ a.2 ≤ b.2)) := by
  unfold pairLe
  simp [Bool.or_eq_true, Bool.and_eq_true, decide_eq_true_eq]

theorem sortLe_total (reverse : Bool) (a b : ℚ × Nat) :
    sortLe reverse a b || sortLe reverse b a := by
  have key : ∀ x y : ℚ × Nat, pairLe x y || pairLe y x := by
    intro x y
    rcases lt_trichotomy x.1 y.1 with h | h | h
    · simp [pairLe_iff, h]
    · rcases Nat.le_total x.2 y.2 with h2 | h2 <;> simp [pairLe_iff, h, h2]
    · simp [pairLe_iff, h]
  unfold sortLe
  cases reverse
  · simpa using key a b
  · simpa using key b a

theorem sortLe_trans (reverse : Bool) (a b c : ℚ × Nat) :
    sortLe reverse a b → sortLe reverse b c → sortLe reverse a c := by
  have key : ∀ x y z : ℚ × Nat, pairLe x y = true → pairLe y z = true → pairLe x z = true := by
    intro x y z hxy hyz
    rw [pairLe_iff] at hxy hyz ⊢
    rcases hxy with h1 | ⟨h1, h1'⟩ <;> rcases hyz with h2 | ⟨h2, h2'⟩
    · exact Or.inl (h1.trans h2)
    · exact Or.inl (h2 ▸ h1)
    · exact Or.inl (h1 ▸ h2)
    · exact Or.inr ⟨h1.trans h2, h1'.trans h2'⟩
  unfold sortLe
  cases reverse
  · simpa using key a b c
  · intro h1 h2
    simpa using key c b a (by simpa using h2) (by simpa using h1)

theorem collectVals_snd_le (vIdx : Int) :
    ∀ (l : List (List String)) (i : Nat) (x : ℚ × Nat),
      x ∈ collectVals vIdx l i → i ≤ x.2 := by
  intro l
  induction l with
  | nil => intro i x hx; simp [collectVals] at hx
  | cons row rest ih =>
    intro i x hx
    unfold collectVals at hx
    rcases hcell : (pyGet row vIdx).bind (fun cell => pyFloatParse (pyStripPct cell)) with
      _ | v
    · rw [hcell] at hx
      exact Nat.le_of_succ_le (ih (i + 1) x hx)
    · rw [hcell] at hx
      rcases List.mem_cons.mp hx with h | h
      · simp [h]
      · exact Nat.le_of_succ_le (ih (i + 1) x h)

theorem collectVals_pairwise (vIdx : Int) :
    ∀ (l : List (List String)) (i : Nat),
      (collectVals vIdx l i).Pairwise (fun a b => a.2 < b.2) := by
  intro l
  induction l with
  | nil => intro i; simp [collectVals]
  | cons row rest ih =>
    intro i
    unfold collectVals
    rcases hcell : (pyGet row vIdx).bind (fun cell => pyFloatParse (pyStripPct cell)) with
      _ | v
    · exact ih (i + 1)
    · exact List.Pairwise.cons
        (fun y hy => Nat.lt_of_succ_le (collectVals_snd_le vIdx rest (i + 1) y hy))
        (ih (i + 1))

/-- Claim C2 (amended): the top-N extraction sorts the parseable rows by the
Python tuple order on `(value, row index)`: the sorted list is a permutation
of the collected rows; between rows of equal value the ascending direction
keeps the original row order while the descending direction reverses it; and
the result pairs the first `n` sorted rows with their key-column cells
(present, non-empty ones). -/
theorem top_n_sorts_by_value_then_direction_dependent_row_order :
    ∀ (sheet_data : List (List String)) (value_col target_col : String) (n : Nat)
      (reverse : Bool),
      ((collectVals (col_letter_to_index value_col) (sheet_data.drop 1) 1).mergeSort
          (sortLe reverse)).Perm
        (collectVals (col_letter_to_index value_col) (sheet_data.drop 1) 1)
      ∧ ((collectVals (col_letter_to_index value_col) (sheet_data.drop 1) 1).mergeSort
          (sortLe reverse)).Pairwise (fun a b =>
            if reverse then b.1 < a.1 ∨ (a.1 = b.1 ∧ b.2 < a.2)
            else a.1 < b.1 ∨ (a.1 = b.1 ∧ a.2 < b.2))
      ∧ extract_top_n_values sheet_data value_col target_col n reverse =
          keysOf sheet_data (col_letter_to_index target_col)
            (((collectVals (col_letter_to_index value_col) (sheet_data.drop 1) 1).mergeSort
              (sortLe reverse)).take n) := by
  intro sheet_data value_col target_col n reverse
  refine ⟨List.mergeSort_perm _ _, ?_, rfl⟩
  have hperm := List.mergeSort_perm
    (collectVals (col_letter_to_index value_col) (sheet_data.drop 1) 1) (sortLe reverse)
  have hsorted : ((collectVals (col_letter_to_index value_col) (sheet_data.drop 1) 1).mergeSort
      (sortLe reverse)).Pairwise (fun a b => sortLe reverse a b = true) := by
    simpa using List.sorted_mergeSort
      (fun a b c => sortLe_trans reverse a b c) (sortLe_total reverse) _
  have hne : ((collectVals (col_letter_to_index value_col) (sheet_data.drop 1) 1).mergeSort
      (sortLe reverse)).Pairwise (fun a b => a.2 ≠ b.2) := by
    have hsym : ∀ {x y : ℚ × Nat}, x.2 ≠ y.2 → y.2 ≠ x.2 := fun h => Ne.symm h
    have h0 : (collectVals (col_letter_to_index value_col) (sheet_data.drop 1) 1).Pairwise
        (fun a b : ℚ × Nat => a.2 ≠ b.2) :=
      (collectVals_pairwise (col_letter_to_index value_col) (sheet_data.drop 1) 1).imp
        (fun h => Nat.ne_of_lt h)
    exact (List.Perm.pairwise_iff (fun {x y} h => hsym h) hperm).mpr h0
  refine (hsorted.and hne).imp ?_
  intro a b hab
  rcases hab with ⟨h1, h2⟩
  cases reverse with
  | false =>
    rw [if_neg (by simp)]
    unfold sortLe at h1
    rcases (pairLe_iff a b).mp (by simpa using h1) with h | ⟨heq, hle⟩
    · exact Or.inl h
    · exact Or.inr ⟨heq, Nat.lt_of_le_of_ne hle h2⟩
  | true =>
    rw [if_pos rfl]
    unfold sortLe at h1
    rcases (pairLe_iff b a).mp (by simpa using h1) with h | ⟨heq, hle⟩
    · exact Or.inl h
    · exact Or.inr ⟨heq.symm, Nat.lt_of_le_of_ne hle (fun hx => h2 hx.symm)⟩

/-- A sheet with a header row and two data rows carrying the same value `5`
and the companion keys `P1`, `P2`. -/
def c2sheet : List (List String) := [["h", "k"], ["5", "P1"], ["5", "P2"]]

unseal List.merge List.mergeSort in
/-- Claim C2 counterexample: on two rows with equal values, descending
extraction returns the companion keys in reverse row order (`P2` before
`P1`), while the ascending direction keeps original row order, so ties are
not broken by original row order in both directions. -/
theorem top_n_descending_reverses_tied_rows :
    extract_top_n_values c2sheet "A" "B" 2 true = ["P2", "P1"]
    ∧ extract_top_n_values c2sheet "A" "B" 2 false = ["P1", "P2"]
    ∧ ["P2", "P1"] ≠ ["P1", "P2"] := by
  refine ⟨by decide, by decide, by decide⟩

/-- Claim C7 (amended): when `n` is at least the number of rows holding a
parseable value, the extraction applies no truncation: it returns the
key-column cells of all parseable rows in sorted order, skipping rows whose
key cell is missing or empty (see the companion counterexample), and does
not fail. -/
theorem top_n_large_n_returns_all_sorted :
    ∀ (sheet_data : List (List String)) (value_col target_col : String) (n : Nat)
      (reverse : Bool),
      (collectVals (col_letter_to_index value_col) (sheet_data.drop 1) 1).length ≤ n →
      extract_top_n_values sheet_data value_col target_col n reverse =
        keysOf sheet_data (col_letter_to_index target_col)
          ((collectVals (col_letter_to_index value_col) (sheet_data.drop 1) 1).mergeSort
            (sortLe reverse)) := by
  intro sheet_data value_col target_col n reverse hlen
  unfold extract_top_n_values
  dsimp only
  rw [List.take_of_length_le (by rw [List.length_mergeSort]; exact hlen)]

unseal List.merge List.mergeSort in
/-- Witness for claim C7's amended theorem at a concrete sheet with two
parseable rows and `n = 5`. -/
theorem top_n_large_n_returns_all_sorted_witness :
    (collectVals (col_letter_to_index "A") (c2sheet.drop 1) 1).length ≤ 5
    ∧ extract_top_n_values c2sheet "A" "B" 5 true =
        keysOf c2sheet (col_letter_to_index "B")
          ((collectVals (col_letter_to_index "A") (c2sheet.drop 1) 1).mergeSort (sortLe true)) :=
  ⟨by decide, top_n_large_n_returns_all_sorted c2sheet "A" "B" 5 true (by decide)⟩

/-- A sheet with two parseable rows, the first of which has an empty
companion key cell. -/
def c7sheet : List (List String) := [["h", "k"], ["1", ""], ["2", "P2"]]

unseal List.merge List.mergeSort in
/-- Claim C7 counterexample: with `n = 5 ≥ 2` parseable rows, the output has
only one entry, not one per parseable row — the row whose companion key cell
is empty is dropped, so the "full column" is not returned. -/
theorem top_n_full_column_misses_empty_keys :
    extract_top_n_values c7sheet "A" "B" 5 false = ["P2"]
    ∧ (collectVals (col_letter_to_index "A") (c7sheet.drop 1) 1).length = 2 := by
  refine ⟨by decide, by decide⟩

/-! ### Claim C6: address handling of the KPI and direct-cell strategies -/

/-- Claim C6 (amended): for a single-letter column address, the KPI strategy
and the direct-cell strategy read exactly the cell at row `int(digits) - 1`
and column `col_letter_to_index(letter)`, and the dispatcher routes an
`Inventory efficiency` description to the KPI strategy and a falsy `Rule`
field to the direct-cell read.  (For two- or three-letter columns the claim
fails: both strategies split the address after the first character, see the
counterexample.) -/
theorem single_letter_strategies_read_located_cell :
    (∀ (sheet_data : List (List String)) (c0 : Char) (ds : List Char) (r : Int)
      (comments plan : String),
      isUpperAZ c0 = true →
      pyIntParse (String.mk ds) = some r →
      extract_kpi_rule sheet_data (String.mk (c0 :: ds)) comments plan =
        .ok (kpiFromCell ((pyGet sheet_data (r - 1)).bind
          (fun rw => pyGet rw (col_letter_to_index (String.mk [c0])))) comments plan))
    ∧ (∀ (sheet_data : List (List String)) (c0 : Char) (ds : List Char) (r : Int)
        (rule_row : RuleRow),
        isUpperAZ c0 = true →
        rule_row.Location = String.mk (c0 :: ds) →
        pyIntParse (String.mk ds) = some r →
        direct_cell_read sheet_data rule_row =
          match (pyGet sheet_data (r - 1)).bind
              (fun rw => pyGet rw (col_letter_to_index (String.mk [c0]))) with
          | some cell => ⟨rule_row.Description, .s cell, rule_row.Comments,
              rule_row.OptimizationPlan⟩
          | none => ⟨rule_row.Description, .null, "位置无效", ""⟩)
    ∧ (∀ (rule_row : RuleRow) (data_dict : List (String × List (List String)))
        (sheet_data : List (List String)),
        data_dict.lookup rule_row.Sheet = some sheet_data →
        rule_row.Description = "Inventory efficiency" →
        extract_rule_data rule_row data_dict =
          extract_kpi_rule sheet_data rule_row.Location rule_row.Comments
            rule_row.OptimizationPlan)
    ∧ (∀ (rule_row : RuleRow) (data_dict : List (String × List (List String)))
        (sheet_data : List (List String)),
        data_dict.lookup rule_row.Sheet = some sheet_data →
        rule_row.Description ≠ "Inventory efficiency" →
        rule_row.Rule = "" →
        extract_rule_data rule_row data_dict = .ok (direct_cell_read sheet_data rule_row)) := by
  refine ⟨?_, ?_, ?_, ?_⟩
  · intro sheet_data c0 ds r comments plan _ hparse
    unfold extract_kpi_rule
    have h1 : (String.mk (c0 :: ds)).toList = c0 :: ds := rfl
    rw [h1]
    simp only [hparse]
  · intro sheet_data c0 ds r rule_row _ hloc hparse
    unfold direct_cell_read
    rw [hloc]
    have h1 : (String.mk (c0 :: ds)).toList = c0 :: ds := rfl
    rw [h1]
    simp only [hparse]
    rcases hcell : (pyGet sheet_data (r - 1)).bind
        (fun rw => pyGet rw (col_letter_to_index (String.mk [c0]))) with _ | cell <;> rfl
  · intro rule_row data_dict sheet_data hlook hdesc
    unfold extract_rule_data
    rw [hlook]
    dsimp only
    rw [if_pos hdesc]
  · intro rule_row data_dict sheet_data hlook hdesc hrule
    unfold extract_rule_data
    rw [hlook]
    dsimp only
    rw [if_neg hdesc, if_pos hrule]

/-- Witness for claim C6's theorem: the KPI strategy at the single-letter
address `A2` over a two-row sheet reads the cell at row 1, column 0. -/
theorem single_letter_strategies_read_located_cell_witness :
    isUpperAZ 'A' = true
    ∧ pyIntParse (String.mk ['2']) = some 2
    ∧ extract_kpi_rule [["x"], ["y"]] (String.mk ('A' :: ['2'])) "" "" =
        .ok (kpiFromCell ((pyGet [["x"], ["y"]] ((2 : Int) - 1)).bind
          (fun rw => pyGet rw (col_letter_to_index (String.mk ['A'])))) "" "") :=
  ⟨by decide, by decide,
    single_letter_strategies_read_located_cell.1 [["x"], ["y"]] 'A' ['2'] 2 "" ""
      (by decide) (by decide)⟩

/-- A 10-row, 27-column sheet, every cell holding `50`, so the cell at the
location `AA10` (row 9, column 26) exists and parses. -/
def c6sheet : List (List String) := List.replicate 10 (List.replicate 27 "50")

/-- Claim C6 counterexample: at the valid two-letter address `AA10` the KPI
strategy does not read the located cell — `int("A10")` raises and escapes
the strategy — although the locator maps `AA10` onto an existing, parseable
cell that would produce a success record. -/
theorem kpi_multi_letter_address_escapes :
    extract_kpi_rule c6sheet "AA10" "" "" =
      .error ("invalid literal for int() with base 10: " ++ "A10")
    ∧ (pyGet c6sheet ((10 : Int) - 1)).bind
        (fun rw => pyGet rw (col_letter_to_index "AA")) = some "50"
    ∧ kpiFromCell (some "50") "" "" = ⟨"Inventory efficiency", .pct 50, "", ""⟩ := by
  refine ⟨by rfl, by decide, by decide⟩

/-! ### Claim C3: batch evaluation -/

/-- Claim C3: with a loaded (nonempty) workbook, batch evaluation returns
exactly one result per submitted rule in submission order; a rule whose
evaluation raises is downgraded to a failure record carrying the message and
does not disturb the other entries. -/
theorem process_rules_one_result_per_rule :
    ∀ (rules : List RuleRow) (data_dict : List (String × List (List String))),
      data_dict ≠ [] →
      (get_results (process_rules rules data_dict)).length = rules.length
      ∧ (∀ (i : Nat) (h : i < rules.length) (r : Record),
          extract_rule_data (rules.get ⟨i, h⟩) data_dict = .ok r →
          (get_results (process_rules rules data_dict)).get? i = some r)
      ∧ (∀ (i : Nat) (h : i < rules.length) (e : String),
          extract_rule_data (rules.get ⟨i, h⟩) data_dict = .error e →
          (get_results (process_rules rules data_dict)).get? i =
            some (failedRecord (rules.get ⟨i, h⟩) e)) := by
  intro rules data_dict hdata
  rcases rules with _ | ⟨rule0, rest⟩
  · refine ⟨rfl, ?_, ?_⟩ <;> intro i h <;> exact absurd h (by simp)
  · have hre : (rule0 :: rest).isEmpty = false := rfl
    have hde : data_dict.isEmpty = false := by
      rcases data_dict with _ | _
      · exact absurd rfl hdata
      · rfl
    have hproc : process_rules (rule0 :: rest) data_dict =
        some ((rule0 :: rest).map (fun rule =>
          match extract_rule_data rule data_dict with
          | .ok r => r
          | .error e => failedRecord rule e)) := by
      unfold process_rules
      rw [hre, hde]
      rfl
    refine ⟨?_, ?_, ?_⟩
    · rw [hproc]
      simp [get_results]
    · intro i h r hok
      rw [hproc]
      unfold get_results
      simp only [Option.getD_some]
      rw [List.get?_map, List.get?_eq_get h]
      simp only [List.get_eq_getElem] at hok
      simp [hok]
    · intro i h e herr
      rw [hproc]
      unfold get_results
      simp only [Option.getD_some]
      rw [List.get?_map, List.get?_eq_get h]
      simp only [List.get_eq_getElem] at herr ⊢
      simp [herr]

/-- The rule row used in claim C3's witness: its KPI evaluation raises a
`ValueError` on the two-letter address. -/
def c3rule : RuleRow := ⟨"S", "Inventory efficiency", "AA10", "", "", "", ""⟩

/-- Witness for claim C3's theorem: a batch of one rule whose evaluation
raises yields exactly one result, the converted failure record. -/
theorem process_rules_one_result_per_rule_witness :
    (get_results (process_rules [c3rule] [("S", c6sheet)])).length = 1
    ∧ (get_results (process_rules [c3rule] [("S", c6sheet)])).get? 0 =
        some (failedRecord c3rule ("invalid literal for int() with base 10: " ++ "A10")) :=
  ⟨(process_rules_one_result_per_rule [c3rule] [("S", c6sheet)] (by simp)).1,
    (process_rules_one_result_per_rule [c3rule] [("S", c6sheet)] (by simp)).2.2 0
      (by decide) ("invalid literal for int() with base 10: " ++ "A10") (by rfl)⟩

/-! ## `RuleManager` (`excel_analyzer_control.py`)

Python dicts preserve insertion order, so `rules` and `rule_dependencies`
are modelled as insertion-ordered association lists.  The two recursive
traversals (`_has_circular_dependency.dfs` and
`_update_execution_order.visit`) carry an explicit fuel argument; a
`ValueError` raised by `visit` propagates out of `add_rule` as `PyOut.exn`. -/

/-- Result of a Python call: a value, an uncaught exception, or the fuel
artifact of the embedding. -/
inductive PyOut (α : Type) where
  | ok (a : α)
  | exn (msg : String)
  | fuelOut
deriving DecidableEq

/-- A rule-info dictionary with the three required fields of
`RuleValidator.validate_rule`. -/
structure RuleInfo where
  sheet_name : String
  cell_position : String
  logic : String
deriving DecidableEq

/-- The mutable state of a `RuleManager` instance. -/
structure RuleManager where
  rules : List (String × RuleInfo)
  rule_dependencies : List (String × List String)
  execution_order : List String
deriving DecidableEq

/-- Python dict assignment `d[k] = v` on an insertion-ordered association
list: overwrite in place when the key exists, append otherwise. -/
def dictSet {α : Type} (l : List (String × α)) (k : String) (v : α) : List (String × α) :=
  if (l.lookup k).isSome then l.map (fun p => if p.1 = k then (k, v) else p)
  else l ++ [(k, v)]

/-- `RuleValidator.validate_rule`, parameterized by the Python `compile`
syntax check `logicOk`; the required-field and type checks always pass in
this embedding because `RuleInfo` carries exactly the three string fields. -/
def validate_rule (logicOk : String → Bool) (rule : RuleInfo) : Bool × String :=
  if rule.logic ≠ "" && !logicOk rule.logic then (false, "计算逻辑语法错误")
  else (true, "")

/-- `RuleManager._extract_dependencies`: names of already-stored rules that
occur as substrings of the new rule's logic text, in storage order. -/
def extract_dependencies (rules : List (String × RuleInfo)) (logic : String) : List String :=
  if logic = "" then [] else (rules.map Prod.fst).filter (fun name => containsSub logic name)

mutual

/-- The inner `dfs` of `RuleManager._has_circular_dependency`: revisiting a
name on the current path reports a cycle; a name without recorded
dependencies is a leaf.  The `visited` set is exactly the current recursion
path (Python adds before the loop and removes after it). -/
def dfsCirc (deps : List (String × List String)) (fuel : Nat) (visited : List String)
    (rule : String) : Option Bool :=
  match fuel with
  | 0 => none
  | f + 1 =>
    if rule ∈ visited then some true
    else
      match deps.lookup rule with
      | none => some false
      | some ds => dfsCircFold deps f (rule :: visited) ds
termination_by (fuel, 0)

/-- The `for dep in ...: if dfs(dep): return True` loop of
`_has_circular_dependency`. -/
def dfsCircFold (deps : List (String × List String)) (fuel : Nat) (visited : List String)
    (l : List String) : Option Bool :=
  match l with
  | [] => some false
  | d :: ds =>
    match dfsCirc deps fuel visited d with
    | some true => some true
    | some false => dfsCircFold deps fuel visited ds
    | none => none
termination_by (fuel, l.length + 1)

end

/-- `RuleManager._has_circular_dependency`.  The source builds
`temp_deps = self.rule_dependencies.copy()` extended with the new rule's
dependencies, but its inner `dfs` closure reads `self.rule_dependencies`,
never `temp_deps` — the extension is dead code (kept here as the unused
binding).  The search therefore runs over the stored dependency map only,
so it returns `False` immediately for any rule without a stored entry; in
particular it never detects a cycle introduced by a fresh rule's inferred
dependencies (see claim C4).  The fuel exceeds the deepest possible
recursion (every non-leaf path entry is a distinct key of the map), so
`none` is never returned here. -/
def RuleManager.has_circular_dependency (mgr : RuleManager) (new_rule : String)
    (dependencies : List String) : Option Bool :=
  let _temp_deps := dictSet mgr.rule_dependencies new_rule dependencies
  dfsCirc mgr.rule_dependencies (mgr.rule_dependencies.length + 2) [] new_rule

/-- `self.rule_dependencies.get(rule, [])`: the recorded dependency list of
a name, empty when absent. -/
def depsGet (deps : List (String × List String)) (rule : String) : List String :=
  (deps.lookup rule).getD []

/-- The mutable triple `(temp, visited, execution_order)` of
`RuleManager._update_execution_order`. -/
structure DfsState where
  temp : List String
  visited : List String
  order : List String
deriving DecidableEq

mutual

/-- The inner `visit` of `RuleManager._update_execution_order`: a name on
`temp` (the current path) raises `ValueError`; a visited name returns; a
fresh name is pushed on `temp`, its recorded dependencies are visited, and
it is then moved to `visited` and appended to the order. -/
def visit (deps : List (String × List String)) (fuel : Nat) (rule : String)
    (st : DfsState) : PyOut DfsState :=
  match fuel with
  | 0 => .fuelOut
  | f + 1 =>
    if rule ∈ st.temp then .exn ("检测到循环依赖: " ++ rule)
    else if rule ∈ st.visited then .ok st
    else
      match visitFold deps f (depsGet deps rule) ⟨rule :: st.temp, st.visited, st.order⟩ with
      | .ok st2 => .ok ⟨st2.temp.erase rule, rule :: st2.visited, st2.order ++ [rule]⟩
      | e => e
termination_by (fuel, 0)

/-- The `for dep in ...: visit(dep)` loop of `_update_execution_order`. -/
def visitFold (deps : List (String × List String)) (fuel : Nat) (l : List String)
    (st : DfsState) : PyOut DfsState :=
  match l with
  | [] => .ok st
  | d :: ds =>
    match visit deps fuel d st with
    | .ok st2 => visitFold deps fuel ds st2
    | e => e
termination_by (fuel, l.length + 1)

end

/-- The top loop of `_update_execution_order`:
`for rule in self.rules: if rule not in visited: visit(rule)`. -/
def updateLoop (deps : List (String × List String)) (fuel : Nat) :
    List String → DfsState → PyOut DfsState
  | [], st => .ok st
  | r :: rs, st =>
    if r ∈ st.visited then updateLoop deps fuel rs st
    else
      match visit deps fuel r st with
      | .ok st2 => updateLoop deps fuel rs st2
      | e => e

/-- `RuleManager._update_execution_order`: recompute the execution order
from scratch by depth-first postorder over all stored rules.  The fuel
bounds the recursion depth, which never exceeds the number of stored names
plus recorded dependency entries. -/
def RuleManager.update_execution_order (mgr : RuleManager) : PyOut (List String) :=
  let fuel := mgr.rules.length + mgr.rule_dependencies.length +
    (mgr.rule_dependencies.map (fun p => p.2.length)).sum + 2
  match updateLoop mgr.rule_dependencies fuel (mgr.rules.map Prod.fst) ⟨[], [], []⟩ with
  | .ok st => .ok st.order
  | .exn m => .exn m
  | .fuelOut => .fuelOut

/-- `RuleManager.add_rule`: duplicate-name check, validation, dependency
inference, cycle check (which, per `has_circular_dependency`, consults only
the already-stored dependency map), then storage and recomputation of the
execution order.  A `ValueError` escaping `_update_execution_order` leaves
`add_rule` as an exception (`PyOut.exn`; at that point the Python object
already holds the new rule and dependencies and an emptied execution order —
that partially-mutated state is not observable through any claim and is not
modelled beyond the exception). -/
def RuleManager.add_rule (logicOk : String → Bool) (mgr : RuleManager)
    (rule_name : String) (rule_info : RuleInfo) : PyOut (Bool × String × RuleManager) :=
  if (mgr.rules.lookup rule_name).isSome then
    .ok (false, "规则名称'" ++ rule_name ++ "'已存在", mgr)
  else
    let v := validate_rule logicOk rule_info
    if !v.1 then .ok (false, v.2, mgr)
    else
      let dependencies := extract_dependencies mgr.rules rule_info.logic
      match mgr.has_circular_dependency rule_name dependencies with
      | none => .fuelOut
      | some true => .ok (false, "规则'" ++ rule_name ++ "'存在循环依赖", mgr)
      | some false =>
        let mgr1 : RuleManager :=
          { mgr with
            rules := dictSet mgr.rules rule_name rule_info,
            rule_dependencies := dictSet mgr.rule_dependencies rule_name dependencies }
        match mgr1.update_execution_order with
        | .ok order => .ok (true, "", { mgr1 with execution_order := order })
        | .exn m => .exn m
        | .fuelOut => .fuelOut

/-- A manager state storing rule `A` whose recorded dependency entry points
at the about-to-be-inserted name `B`: inserting `B` with logic text `A`
(inferred dependencies `[A]`) closes the cycle `A ↔ B`. -/
def c4mgr : RuleManager :=
  ⟨[("A", ⟨"s", "A1", "B"⟩)], [("A", ["B"])], ["A"]⟩

unseal dfsCirc dfsCircFold visit visitFold in
/-- Claim C4 (code bug, evaluated at the failing input): inserting `B` with
logic `A` into `c4mgr` creates the cycle `A ↔ B`, yet
`_has_circular_dependency` reports no cycle — its `dfs` reads only the
stored dependency map, in which the fresh name `B` has no entry — so
`add_rule` stores the rule and recomputes the execution order, whose
depth-first visit then raises `ValueError`; the exception escapes
`add_rule` (leaving the Python state mutated) instead of the
circular-dependency rejection with unchanged state that the claim (and the
construction of `temp_deps` in the source) intend. -/
theorem add_rule_undetected_cycle_escapes :
    extract_dependencies c4mgr.rules (RuleInfo.logic ⟨"s", "B1", "A"⟩) = ["A"]
    ∧ c4mgr.has_circular_dependency "B"
        (extract_dependencies c4mgr.rules (RuleInfo.logic ⟨"s", "B1", "A"⟩)) = some false
    ∧ RuleManager.add_rule (fun _ => true) c4mgr "B" ⟨"s", "B1", "A"⟩ =
        .exn ("检测到循环依赖: " ++ "A") := by
  refine ⟨by decide, by decide, by decide⟩

/-! ### Claim C8: the recomputed execution order is a topological order -/

/-- Invariant of the `_update_execution_order` traversal state: the path and
the order are duplicate-free, `visited` and `order` hold the same names, no
name is both in flight and completed, and every completed name's recorded
dependencies were completed before it. -/
structure GoodSt (deps : List (String × List String)) (st : DfsState) : Prop where
  temp_nodup : st.temp.Nodup
  order_nodup : st.order.Nodup
  mem_iff : ∀ x, x ∈ st.visited ↔ x ∈ st.order
  disj : ∀ x ∈ st.temp, x ∉ st.visited
  closed : ∀ i r d, st.order.get? i = some r → d ∈ depsGet deps r → d ∈ st.order.take i

theorem closed_append (deps : List (String × List String)) (order : List String)
    (r : String)
    (hcl : ∀ i x d, order.get? i = some x → d ∈ depsGet deps x → d ∈ order.take i)
    (hdeps : ∀ d ∈ depsGet deps r, d ∈ order) :
    ∀ i x d, (order ++ [r]).get? i = some x → d ∈ depsGet deps x →
      d ∈ (order ++ [r]).take i := by
  intro i x d hget hd
  by_cases hi : i < order.length
  · rw [List.get?_append hi] at hget
    rw [List.take_append_of_le_length (le_of_lt hi)]
    exact hcl i x d hget hd
  · rcases Nat.lt_or_ge i (order.length + 1) with hi2 | hi2
    · have hieq : i = order.length := by omega
      subst hieq
      rw [List.get?_concat_length] at hget
      have hx : x = r := by injection hget with h; exact h.symm
      subst hx
      rw [List.take_left]
      exact hdeps d hd
    · exfalso
      have hnone : (order ++ [r]).get? i = none := by
        rw [List.get?_eq_none]
        simp only [List.length_append, List.length_singleton]
        omega
      rw [hnone] at hget
      cases hget

/-- What a successful `visit` call guarantees, as a statement about one fuel
level. -/
def VisitSpec (deps : List (String × List String)) (fuel : Nat) : Prop :=
  ∀ (rule : String) (st st' : DfsState), visit deps fuel rule st = .ok st' →
    GoodSt deps st →
    GoodSt deps st' ∧ st'.temp = st.temp ∧ (∀ x ∈ st.visited, x ∈ st'.visited)
      ∧ rule ∈ st'.visited

/-- What a successful `visitFold` call guarantees at one fuel level. -/
def FoldSpec (deps : List (String × List String)) (fuel : Nat) : Prop :=
  ∀ (l : List String) (st st' : DfsState), visitFold deps fuel l st = .ok st' →
    GoodSt deps st →
    GoodSt deps st' ∧ st'.temp = st.temp ∧ (∀ x ∈ st.visited, x ∈ st'.visited)
      ∧ (∀ d ∈ l, d ∈ st'.visited)

theorem foldSpec_of_visitSpec (deps : List (String × List String)) (fuel : Nat)
    (hv : VisitSpec deps fuel) : FoldSpec deps fuel := by
  intro l
  induction l with
  | nil =>
    intro st st' h hg
    rw [visitFold] at h
    injection h with h
    subst h
    exact ⟨hg, rfl, fun x hx => hx, by simp⟩
  | cons d ds ih =>
    intro st st' h hg
    rw [visitFold] at h
    rcases hvis : visit deps fuel d st with st2 | m | _ <;> rw [hvis] at h
    · obtain ⟨hg2, htemp2, hmono2, hd2⟩ := hv d st st2 hvis hg
      obtain ⟨hg3, htemp3, hmono3, hds3⟩ := ih st2 st' h hg2
      refine ⟨hg3, htemp3.trans htemp2, fun x hx => hmono3 x (hmono2 x hx), ?_⟩
      intro d' hd'
      rcases List.mem_cons.mp hd' with hcase | hcase
      · exact hcase ▸ hmono3 d hd2
      · exact hds3 d' hcase
    · cases h
    · cases h

theorem visitSpec_all (deps : List (String × List String)) :
    ∀ fuel, VisitSpec deps fuel := by
  intro fuel
  induction fuel with
  | zero =>
    intro rule st st' h _
    rw [visit] at h
    cases h
  | succ f ih =>
    have hfold := foldSpec_of_visitSpec deps f ih
    intro rule st st' h hg
    rw [visit] at h
    by_cases h1 : rule ∈ st.temp
    · rw [if_pos h1] at h; cases h
    · rw [if_neg h1] at h
      by_cases h2 : rule ∈ st.visited
      · rw [if_pos h2] at h
        injection h with h
        subst h
        exact ⟨hg, rfl, fun x hx => hx, h2⟩
      · rw [if_neg h2] at h
        have hg1 : GoodSt deps ⟨rule :: st.temp, st.visited, st.order⟩ := by
          refine ⟨List.Nodup.cons h1 hg.temp_nodup, hg.order_nodup, hg.mem_iff, ?_,
            hg.closed⟩
          intro x hx
          rcases List.mem_cons.mp hx with hc | hc
          · exact hc ▸ h2
          · exact hg.disj x hc
        rcases hfres : visitFold deps f (depsGet deps rule)
            ⟨rule :: st.temp, st.visited, st.order⟩ with st2 | m | _ <;> rw [hfres] at h
        · obtain ⟨hg2, htemp2, hmono2, hdeps2⟩ := hfold (depsGet deps rule) _ st2 hfres hg1
          injection h with h
          subst h
          have hrt : rule ∈ st2.temp := by rw [htemp2]; exact List.mem_cons_self rule st.temp
          have hrv : rule ∉ st2.visited := hg2.disj rule hrt
          have hro : rule ∉ st2.order := fun hc => hrv ((hg2.mem_iff rule).mpr hc)
          have htempeq : st2.temp.erase rule = st.temp := by
            rw [htemp2]; exact List.erase_cons_head rule st.temp
          refine ⟨?_, htempeq, ?_, ?_⟩
          · refine ⟨?_, ?_, ?_, ?_, ?_⟩
            · simpa [htempeq] using hg.temp_nodup
            · refine List.nodup_append.mpr ⟨hg2.order_nodup, by simp, ?_⟩
              intro a ha hb
              rcases List.mem_singleton.mp hb with rfl
              exact hro ha
            · intro x
              simp only [List.mem_cons, List.mem_append, List.mem_singleton,
                hg2.mem_iff x]
              tauto
            · intro x hx
              rw [htempeq] at hx
              intro hc
              rcases List.mem_cons.mp hc with hc1 | hc1
              · exact h1 (hc1 ▸ hx)
              · exact hg2.disj x (by rw [htemp2]; exact List.mem_cons_of_mem rule hx) hc1
            · exact closed_append deps st2.order rule hg2.closed
                (fun d hd => (hg2.mem_iff d).mp (hdeps2 d hd))
          · intro x hx
            exact List.mem_cons_of_mem rule (hmono2 x hx)
          · exact List.mem_cons_self rule st2.visited
        · cases h
        · cases h

theorem updateLoop_spec (deps : List (String × List String)) (fuel : Nat) :
    ∀ (l : List String) (st st' : DfsState), updateLoop deps fuel l st = .ok st' →
      GoodSt deps st →
      GoodSt deps st' ∧ (∀ x ∈ st.visited, x ∈ st'.visited)
        ∧ (∀ r ∈ l, r ∈ st'.visited) := by
  intro l
  induction l with
  | nil =>
    intro st st' h hg
    rw [updateLoop] at h
    injection h with h
    subst h
    exact ⟨hg, fun x hx => hx, by simp⟩
  | cons r rs ih =>
    intro st st' h hg
    rw [updateLoop] at h
    by_cases h1 : r ∈ st.visited
    · rw [if_pos h1] at h
      obtain ⟨hg2, hmono2, hrs2⟩ := ih st st' h hg
      refine ⟨hg2, hmono2, ?_⟩
      intro x hx
      rcases List.mem_cons.mp hx with hc | hc
      · exact hc ▸ hmono2 r h1
      · exact hrs2 x hc
    · rw [if_neg h1] at h
      rcases hvis : visit deps fuel r st with st2 | m | _ <;> rw [hvis] at h
      · obtain ⟨hg2, _, hmono2, hr2⟩ := visitSpec_all deps fuel r st st2 hvis hg
        obtain ⟨hg3, hmono3, hrs3⟩ := ih st2 st' h hg2
        refine ⟨hg3, fun x hx => hmono3 x (hmono2 x hx), ?_⟩
        intro x hx
        rcases List.mem_cons.mp hx with hc | hc
        · exact hc ▸ hmono3 r hr2
        · exact hrs3 x hc
      · cases h
      · cases h

theorem update_execution_order_spec (mgr : RuleManager) (order : List String) :
    mgr.update_execution_order = .ok order →
    order.Nodup ∧ (∀ r ∈ mgr.rules.map Prod.fst, r ∈ order)
      ∧ (∀ i r d, order.get? i = some r → d ∈ depsGet mgr.rule_dependencies r →
          d ∈ order.take i) := by
  intro h
  unfold RuleManager.update_execution_order at h
  dsimp only at h
  rcases hloop : updateLoop mgr.rule_dependencies
      (mgr.rules.length + mgr.rule_dependencies.length +
        (mgr.rule_dependencies.map (fun p => p.2.length)).sum + 2)
      (mgr.rules.map Prod.fst) ⟨[], [], []⟩ with st | m | _ <;> rw [hloop] at h
  · injection h with h
    subst h
    have hginit : GoodSt mgr.rule_dependencies ⟨[], [], []⟩ := by
      refine ⟨List.nodup_nil, List.nodup_nil, by simp, by simp, ?_⟩
      intro i r d hget
      rw [List.get?_eq_none.mpr (by simp)] at hget
      cases hget
    obtain ⟨hg, _, hall⟩ := updateLoop_spec mgr.rule_dependencies _ _ _ _ hloop hginit
    exact ⟨hg.order_nodup, fun r hr => (hg.mem_iff r).mp (hall r hr), hg.closed⟩
  · cases h
  · cases h

/-- Claim C8: after every successful `add_rule` call the recomputed
execution order contains each stored rule (exactly once, being
duplicate-free), and every recorded dependency of a listed name appears
strictly earlier in the order than the name itself — the order is a
topological order of the recorded dependency graph. -/
theorem add_rule_success_topological_order :
    ∀ (logicOk : String → Bool) (mgr : RuleManager) (rule_name : String)
      (rule_info : RuleInfo) (msg : String) (mgr2 : RuleManager),
      RuleManager.add_rule logicOk mgr rule_name rule_info = .ok (true, msg, mgr2) →
      (∀ r ∈ mgr2.rules.map Prod.fst, r ∈ mgr2.execution_order)
      ∧ mgr2.execution_order.Nodup
      ∧ (∀ i r d, mgr2.execution_order.get? i = some r →
          d ∈ depsGet mgr2.rule_dependencies r → d ∈ mgr2.execution_order.take i) := by
  intro logicOk mgr rule_name rule_info msg mgr2 h
  unfold RuleManager.add_rule at h
  by_cases h1 : (mgr.rules.lookup rule_name).isSome
  · rw [if_pos h1] at h
    injection h with h
    have hcontra : false = true := congrArg (fun p => p.1) h
    cases hcontra
  · rw [if_neg h1] at h
    dsimp only at h
    by_cases h2 : !(validate_rule logicOk rule_info).1
    · rw [if_pos h2] at h
      injection h with h
      have : false = true := congrArg (fun p => p.1) h
      cases this
    · rw [if_neg h2] at h
      rcases h3 : RuleManager.has_circular_dependency mgr rule_name
          (extract_dependencies mgr.rules rule_info.logic) with _ | b
      · rw [h3] at h; cases h
      · rcases b with _ | _
        · rw [h3] at h
          rcases h4 : RuleManager.update_execution_order
              { mgr with
                rules := dictSet mgr.rules rule_name rule_info,
                rule_dependencies :=
                  dictSet mgr.rule_dependencies rule_name
                    (extract_dependencies mgr.rules rule_info.logic) } with order | m | _ <;>
            rw [h4] at h
          · injection h with h
            have hmgr2 :
                mgr2 =
                  { mgr with
                    rules := dictSet mgr.rules rule_name rule_info,
                    rule_dependencies :=
                      dictSet mgr.rule_dependencies rule_name
                        (extract_dependencies mgr.rules rule_info.logic),
                    execution_order := order } := by
              have := congrArg (fun p => p.2.2) h
              exact this.symm
            subst hmgr2
            obtain ⟨hnd, hmem, hcl⟩ := update_execution_order_spec _ order h4
            exact ⟨hmem, hnd, hcl⟩
          · cases h
          · cases h
        · rw [h3] at h
          injection h with h
          have : false = true := congrArg (fun p => p.1) h
          cases this

/-- The manager state produced by inserting the single rule `A` into an
empty manager. -/
def c8mgr : RuleManager := ⟨[("A", ⟨"s", "A1", ""⟩)], [("A", [])], ["A"]⟩

unseal visit visitFold dfsCirc dfsCircFold in
/-- Witness for claim C8's theorem: one successful insertion into the empty
manager, with the conclusion sampled at the stored rule `A`. -/
theorem add_rule_success_topological_order_witness :
    "A" ∈ c8mgr.execution_order ∧ c8mgr.execution_order.Nodup :=
  have h : RuleManager.add_rule (fun _ => true) ⟨[], [], []⟩ "A" ⟨"s", "A1", ""⟩ =
      .ok (true, "", c8mgr) := by decide
  ⟨(add_rule_success_topological_order (fun _ => true) ⟨[], [], []⟩ "A" ⟨"s", "A1", ""⟩
      "" c8mgr h).1 "A" (by decide),
    (add_rule_success_topological_order (fun _ => true) ⟨[], [], []⟩ "A" ⟨"s", "A1", ""⟩
      "" c8mgr h).2.1⟩

/-! ## `ReportGenerator` (`excel_analyzer_control.py`) — claim C5

The values consumed by `_get_status` are the `_format_value` outputs stored
in `kpi_data`; they are heterogeneous (ints, floats, or strings), which the
`Value` type below models.  `Value.vsci m e` stands for the scientific
notation string `f"{v:.2e}"` with two-decimal mantissa `m/100` and exponent
`e`. -/

/-- A Python value flowing through `_format_value` / `_get_status`:
int, float, scientific-notation string, or other string. -/
inductive Value where
  | vi (n : Int) : Value
  | vf (q : ℚ) : Value
  | vsci (m : Int) (e : Int) : Value
  | vs (s : String) : Value
deriving DecidableEq

/-- The numeric reading of a value, when `isinstance(value, (int, float))`. -/
def qvalOf : Value → Option ℚ
  | .vi n => some (n : ℚ)
  | .vf q => some q
  | _ => none

/-- The `ReportGenerator.thresholds` dictionary, keyed by exact rule name. -/
def thresholds : List (String × List (String × Int)) :=
  [("库存效率", [("good", 90), ("warning", 70)]),
   ("缺料风险", [("high", 80), ("medium", 50)]),
   ("呆滞风险", [("high", 70), ("medium", 40)]),
   ("运输天数", [("high", 30), ("medium", 15)]),
   ("安全时间", [("high", 60), ("medium", 30)]),
   ("MOQ影响", [("high", 500000), ("medium", 100000)])]

/-- `ReportGenerator._get_status`: non-numeric values and rule names without
an exact `thresholds` entry classify as `warning`; an inventory-efficiency
name compares against the `good`/`warning` thresholds (closed on the good
side), the risk/days/impact families against `high`/`medium`. -/
def get_status (rule_name : String) (value : Value) : String :=
  match qvalOf value with
  | none => "warning"
  | some v =>
    match thresholds.lookup rule_name with
    | none => "warning"
    | some th =>
      if containsSub rule_name "库存效率" then
        if ((th.lookup "good").getD 0 : ℚ) ≤ v then "good"
        else if ((th.lookup "warning").getD 0 : ℚ) ≤ v then "warning"
        else "bad"
      else if containsSub rule_name "风险" || containsSub rule_name "天数" ||
          containsSub rule_name "影响" then
        if ((th.lookup "high").getD 0 : ℚ) ≤ v then "bad"
        else if ((th.lookup "medium").getD 0 : ℚ) ≤ v then "warning"
        else "good"
      else "warning"

/-- Claim C5 (amended): for the rule name exactly equal to `库存效率` (the
only thresholds key containing that substring) and every numeric value,
classification is `good` iff the value is at least 90 — the boundary is
closed on the good side — `warning` iff it is in `[70, 90)` and `bad`
below; a name that merely contains `库存效率` has no thresholds entry and
classifies as `warning` regardless of the value (see counterexample). -/
theorem inventory_efficiency_status_boundaries :
    ∀ v : ℚ, get_status "库存效率" (.vf v) =
      if 90 ≤ v then "good" else if 70 ≤ v then "warning" else "bad" := by
  intro v
  unfold get_status
  have h1 : qvalOf (.vf v) = some v := rfl
  rw [h1]
  have h2 : thresholds.lookup "库存效率" = some [("good", 90), ("warning", 70)] := rfl
  rw [h2]
  dsimp only
  rw [if_pos (by decide : containsSub "库存效率" "库存效率" = true)]
  have h3 : ((([("good", (90 : Int)), ("warning", 70)]).lookup "good").getD 0 : ℚ) = 90 := rfl
  have h4 : ((([("good", (90 : Int)), ("warning", 70)]).lookup "warning").getD 0 : ℚ) = 70 := rfl
  rw [h3, h4]

/-- Claim C5 counterexample: the name `总库存效率` contains `库存效率` and
the value 95 exceeds the good threshold 90, yet classification yields
`warning`, not `good`, because the thresholds lookup is by exact name. -/
theorem inventory_efficiency_substring_name_misses_thresholds :
    containsSub "总库存效率" "库存效率" = true
    ∧ (90 : ℚ) ≤ 95
    ∧ get_status "总库存效率" (.vf 95) = "warning"
    ∧ get_status "总库存效率" (.vf 95) ≠ "good" := by
  refine ⟨by decide, by norm_num, by rfl, by decide⟩

/-! ## `ExcelAnalyzerControl._format_value` — claim C9

Python floats are idealized as rationals; `round(x, n)` is modelled as
half-to-even rounding of `x * 10^n` (`rndHE`), and the formatted string
`f"{v:.2e}"` as the pair (two-decimal mantissa, exponent) carried by
`Value.vsci`. -/

/-- `abs(q)`, written without the lattice instances so that it evaluates. -/
def qabs (q : ℚ) : ℚ := if q < 0 then -q else q

/-- Half-to-even rounding to an integer (Python `round` at integer scale). -/
def rndHE (q : ℚ) : Int :=
  let fl := Rat.floor q
  let fr := q - (fl : ℚ)
  if fr < mkRat 1 2 then fl
  else if mkRat 1 2 < fr then fl + 1
  else if fl % 2 = 0 then fl else fl + 1

/-- Python `round(q, n)` on the rational model. -/
def roundQ (q : ℚ) (n : Nat) : ℚ :=
  Rat.divInt (rndHE (q * (10 : ℚ) ^ n)) ((10 : Int) ^ n)

/-- `10^e` for an integer exponent. -/
def qpow10 (e : Int) : ℚ :=
  if 0 ≤ e then (10 : ℚ) ^ e.toNat else mkRat 1 ((10 : Nat) ^ (-e).toNat)

/-- Decimal digit count with explicit fuel (call with `fuel = n`). -/
def digitCount : Nat → Nat → Nat
  | 0, _ => 0
  | f + 1, n => if n < 10 then 1 else 1 + digitCount f (n / 10)

/-- The decimal exponent of a nonzero rational: the unique `e` with
`10^e ≤ |q| < 10^(e+1)`, found near the digit-count estimate. -/
def qexp (q : ℚ) : Int :=
  let a := qabs q
  let e0 : Int := (digitCount a.num.natAbs a.num.natAbs : Int) -
    (digitCount a.den a.den : Int)
  if qpow10 (e0 - 1) ≤ a ∧ a < qpow10 e0 then e0 - 1
  else if qpow10 e0 ≤ a ∧ a < qpow10 (e0 + 1) then e0
  else e0 + 1

/-- The mantissa/exponent pair printed by `f"{q:.2e}"` for nonzero `q`:
mantissa rounded to two decimals (stored times 100), with carry into the
exponent when rounding reaches `10.00`. -/
def formatSci (q : ℚ) : Int × Int :=
  let e := qexp q
  let m := rndHE (q * qpow10 (-e) * 100)
  if 1000 ≤ m.natAbs then (m / 10, e + 1) else (m, e)

/-- The float value `float(s)` of the scientific string `Value.vsci m e`. -/
def sciVal (m e : Int) : ℚ := Rat.divInt m 100 * qpow10 e

/-- Zero-padded two-digit decimal rendering. -/
def twoDigits (n : Nat) : String := if n < 10 then "0" ++ toString n else toString n

/-- The text of the scientific string `Value.vsci m e`, e.g. `1.00e+06`. -/
def renderSci (m e : Int) : String :=
  (if m < 0 then "-" else "") ++ toString (m.natAbs / 100) ++ "." ++
    twoDigits (m.natAbs % 100) ++ "e" ++ (if e < 0 then "-" else "+") ++ twoDigits e.natAbs

/-- Python `==` on values: numeric comparison across int/float, text
comparison across the string forms, `False` across kinds. -/
def veq (a b : Value) : Bool :=
  match a, b with
  | .vi m, .vi n => decide (m = n)
  | .vi m, .vf q => decide ((m : ℚ) = q)
  | .vf q, .vi n => decide (q = (n : ℚ))
  | .vf p, .vf q => decide (p = q)
  | .vs s, .vs t => decide (s = t)
  | .vsci m e, .vsci m2 e2 => decide (m = m2) && decide (e = e2)
  | .vs s, .vsci m e => decide (s = renderSci m e)
  | .vsci m e, .vs s => decide (renderSci m e = s)
  | _, _ => false

/-- `isinstance(value, (int, float))`. -/
def isNum : Value → Bool
  | .vi _ => true
  | .vf _ => true
  | _ => false

/-- The numeric reading of a value, defaulting to 0. -/
def qvalN (x : Value) : ℚ := (qvalOf x).getD 0

/-- The numeric (float) branch of `_format_value`: zero collapses to the
int `0`; very small or very large magnitudes format scientifically; both
remaining branches (`abs_value > 1000` and the default) return
`round(value, 2)`. -/
def fvFloat (q : ℚ) : Value :=
  if q = 0 then .vi 0
  else if qabs q < mkRat 1 10000 then .vsci (formatSci q).1 (formatSci q).2
  else if 1000000 < qabs q then .vsci (formatSci q).1 (formatSci q).2
  else .vf (roundQ q 2)

/-- `ExcelAnalyzerControl._format_value`.  An int input follows the same
branches but `round(int, 2)` returns the int itself; a scientific string
contains no `%` and parses as a float, so the string branch recurses on its
parsed value; a `%`-string is parsed, divided by 100 and rounded to four
decimals (or formatted scientifically when tiny), with the original string
returned on a parse failure; other strings recurse on their parsed value or
pass through stripped. -/
def format_value : Value → Value
  | .vi n =>
    if n = 0 then .vi 0
    else if qabs (n : ℚ) < mkRat 1 10000 then
      .vsci (formatSci (n : ℚ)).1 (formatSci (n : ℚ)).2
    else if 1000000 < qabs (n : ℚ) then
      .vsci (formatSci (n : ℚ)).1 (formatSci (n : ℚ)).2
    else .vi n
  | .vf q => fvFloat q
  | .vsci m e => fvFloat (sciVal m e)
  | .vs s =>
    if s.toList.any (fun c => c = '%') then
      match pyFloatParse (pyStripPct s) with
      | some x =>
        let num := x * mkRat 1 100
        if qabs num < mkRat 1 10000 then .vsci (formatSci num).1 (formatSci num).2
        else .vf (roundQ num 4)
      | none => .vs s
    else
      match pyFloatParse s with
      | some q => fvFloat q
      | none => .vs (pyStripWs s)

/-! ### Rounding lemmas -/

theorem qabs_eq_abs (q : ℚ) : qabs q = |q| := by
  unfold qabs
  rcases lt_or_ge q 0 with h | h
  · rw [if_pos h, abs_of_neg h]
  · rw [if_neg (not_lt.mpr h), abs_of_nonneg h]

theorem ratFloor_eq_intFloor (q : ℚ) : Rat.floor q = ⌊q⌋ := rfl

theorem rndHE_intCast (k : Int) : rndHE (k : ℚ) = k := by
  unfold rndHE
  rw [ratFloor_eq_intFloor, Int.floor_intCast]
  have h0 : ((k : ℚ) - (k : ℚ)) < mkRat 1 2 := by
    rw [sub_self, Rat.mkRat_eq_div]
    norm_num
  rw [if_pos h0]

theorem rndHE_le (q : ℚ) (N : Int) (h : q ≤ (N : ℚ)) : rndHE q ≤ N := by
  unfold rndHE
  rw [ratFloor_eq_intFloor]
  have hfl : ⌊q⌋ ≤ N := by
    calc ⌊q⌋ ≤ ⌊(N : ℚ)⌋ := Int.floor_le_floor h
    _ = N := Int.floor_intCast N
  have hhalf : ¬(q - (⌊q⌋ : ℚ) < mkRat 1 2) → ⌊q⌋ + 1 ≤ N := by
    intro hfr
    rw [Rat.mkRat_eq_div] at hfr
    push_neg at hfr
    by_contra hc
    push_neg at hc
    have hN : (⌊q⌋ : Int) = N := by omega
    have hq : q - (⌊q⌋ : ℚ) ≤ 0 := by
      have h2 : q ≤ (⌊q⌋ : ℚ) := by rw [hN]; exact h
      linarith
    linarith
  by_cases h1 : q - (⌊q⌋ : ℚ) < mkRat 1 2
  · rw [if_pos h1]; exact hfl
  · rw [if_neg h1]
    by_cases h2 : mkRat 1 2 < q - (⌊q⌋ : ℚ)
    · rw [if_pos h2]; exact hhalf h1
    · rw [if_neg h2]
      by_cases h3 : ⌊q⌋ % 2 = 0
      · rw [if_pos h3]; exact hfl
      · rw [if_neg h3]; exact hhalf h1

theorem rndHE_ge (q : ℚ) (N : Int) (h : (N : ℚ) ≤ q) : N ≤ rndHE q := by
  unfold rndHE
  rw [ratFloor_eq_intFloor]
  have hfl : N ≤ ⌊q⌋ := Int.le_floor.mpr h
  by_cases h1 : q - (⌊q⌋ : ℚ) < mkRat 1 2
  · rw [if_pos h1]; exact hfl
  · rw [if_neg h1]
    by_cases h2 : mkRat 1 2 < q - (⌊q⌋ : ℚ)
    · rw [if_pos h2]; omega
    · rw [if_neg h2]
      by_cases h3 : ⌊q⌋ % 2 = 0
      · rw [if_pos h3]; exact hfl
      · rw [if_neg h3]; omega

theorem roundQ_two_of_div100 (k : Int) : roundQ (Rat.divInt k 100) 2 = Rat.divInt k 100 := by
  unfold roundQ
  have h1 : Rat.divInt k 100 * (10 : ℚ) ^ (2 : Nat) = (k : ℚ) := by
    rw [Rat.divInt_eq_div]
    push_cast
    have hten : (10 : ℚ) ^ (2 : Nat) = 100 := by norm_num
    rw [hten, div_mul_cancel₀]
    norm_num
  rw [h1, rndHE_intCast]
  norm_num

/-- Claim C9 (amended): canonicalization satisfies
`canonicalize(canonicalize(x)) == canonicalize(x)` for every numeric value
`x` that is zero or of magnitude between `1e-4` and `1e6` — which covers
every numeric canonicalize output of magnitude at most `1e6`.  (Numeric
outputs above `1e6`, reachable through percentage inputs, break the
equation: see the counterexample.) -/
theorem canonicalize_idempotent_within_bounds :
    ∀ x : Value, isNum x = true →
      (qvalN x = 0 ∨ (mkRat 1 10000 ≤ qabs (qvalN x) ∧ qabs (qvalN x) ≤ 1000000)) →
      veq (format_value (format_value x)) (format_value x) = true := by
  intro x hnum hb
  cases x with
  | vs s => simp [isNum] at hnum
  | vsci m e => simp [isNum] at hnum
  | vi n =>
    by_cases hn : n = 0
    · subst hn; decide
    · have hq : qvalN (Value.vi n) = (n : ℚ) := rfl
      rcases hb with hb0 | ⟨hb1, hb2⟩
      · rw [hq] at hb0
        exact absurd (by exact_mod_cast hb0) hn
      · rw [hq] at hb1 hb2
        have h1 : ¬(qabs ((n : Int) : ℚ) < mkRat 1 10000) := by
          rw [qabs_eq_abs, Rat.mkRat_eq_div, not_lt]
          have hge : (1 : ℚ) ≤ |((n : Int) : ℚ)| := by
            rw [← Int.cast_abs]
            exact_mod_cast Int.one_le_abs hn
          calc ((1 : Int) : ℚ) / ((10000 : Nat) : ℚ) ≤ 1 := by norm_num
          _ ≤ |((n : Int) : ℚ)| := hge
        have h2 : ¬((1000000 : ℚ) < qabs ((n : Int) : ℚ)) := not_lt.mpr hb2
        have hfv : format_value (Value.vi n) = Value.vi n := by
          simp only [format_value]
          rw [if_neg hn, if_neg h1, if_neg h2]
        rw [hfv, hfv]
        simp [veq]
  | vf q =>
    by_cases hq0 : q = 0
    · subst hq0; decide
    · have hqv : qvalN (Value.vf q) = q := rfl
      rcases hb with hb0 | ⟨hb1, hb2⟩
      · exact absurd (hqv ▸ hb0) hq0
      · rw [hqv] at hb1 hb2
        have h_fv : format_value (Value.vf q) = Value.vf (roundQ q 2) := by
          simp only [format_value]
          unfold fvFloat
          rw [if_neg hq0, if_neg (not_lt.mpr hb1), if_neg (not_lt.mpr hb2)]
        rw [h_fv]
        have hz : roundQ q 2 = Rat.divInt (rndHE (q * (10 : ℚ) ^ (2 : Nat))) 100 := by
          unfold roundQ
          norm_num
        have habs : |q| ≤ 1000000 := by rw [← qabs_eq_abs]; exact hb2
        have hqle : q * (10 : ℚ) ^ (2 : Nat) ≤ ((100000000 : Int) : ℚ) := by
          have h := (abs_le.mp habs).2
          push_cast
          nlinarith [h]
        have hqge : ((-100000000 : Int) : ℚ) ≤ q * (10 : ℚ) ^ (2 : Nat) := by
          have h := (abs_le.mp habs).1
          push_cast
          nlinarith [h]
        have hkle : rndHE (q * (10 : ℚ) ^ (2 : Nat)) ≤ 100000000 :=
          rndHE_le _ _ hqle
        have hkge : -100000000 ≤ rndHE (q * (10 : ℚ) ^ (2 : Nat)) :=
          rndHE_ge _ _ hqge
        by_cases hk0 : rndHE (q * (10 : ℚ) ^ (2 : Nat)) = 0
        · rw [hz, hk0, Rat.zero_divInt]
          decide
        · have hzabs : qabs (Rat.divInt (rndHE (q * (10 : ℚ) ^ (2 : Nat))) 100) =
              ((|rndHE (q * (10 : ℚ) ^ (2 : Nat))| : Int) : ℚ) / 100 := by
            rw [qabs_eq_abs, Rat.divInt_eq_div, abs_div, Int.cast_abs]
            norm_num
          have h1k : (1 : ℚ) ≤ ((|rndHE (q * (10 : ℚ) ^ (2 : Nat))| : Int) : ℚ) := by
            exact_mod_cast Int.one_le_abs hk0
          have h8k : ((|rndHE (q * (10 : ℚ) ^ (2 : Nat))| : Int) : ℚ) ≤ 100000000 := by
            exact_mod_cast abs_le.mpr ⟨hkge, hkle⟩
          have hlow : ¬(qabs (Rat.divInt (rndHE (q * (10 : ℚ) ^ (2 : Nat))) 100) <
              mkRat 1 10000) := by
            rw [hzabs, Rat.mkRat_eq_div, not_lt]
            calc ((1 : Int) : ℚ) / ((10000 : Nat) : ℚ) ≤ 1 / 100 := by norm_num
            _ ≤ ((|rndHE (q * (10 : ℚ) ^ (2 : Nat))| : Int) : ℚ) / 100 :=
              (div_le_div_right (by norm_num)).mpr h1k
          have hhigh : ¬((1000000 : ℚ) <
              qabs (Rat.divInt (rndHE (q * (10 : ℚ) ^ (2 : Nat))) 100)) := by
            rw [hzabs, not_lt]
            calc ((|rndHE (q * (10 : ℚ) ^ (2 : Nat))| : Int) : ℚ) / 100 ≤ 100000000 / 100 :=
              (div_le_div_right (by norm_num)).mpr h8k
            _ = 1000000 := by norm_num
          have hz0 : Rat.divInt (rndHE (q * (10 : ℚ) ^ (2 : Nat))) 100 ≠ 0 := by
            intro hc
            apply hk0
            rw [Rat.divInt_eq_div] at hc
            have := div_eq_zero_iff.mp hc
            rcases this with h | h
            · exact_mod_cast h
            · norm_num at h
          have h_fv2 : format_value (Value.vf (Rat.divInt (rndHE (q * (10 : ℚ) ^ (2 : Nat))) 100)) =
              Value.vf (Rat.divInt (rndHE (q * (10 : ℚ) ^ (2 : Nat))) 100) := by
            simp only [format_value]
            unfold fvFloat
            rw [if_neg hz0, if_neg hlow, if_neg hhigh, roundQ_two_of_div100]
          rw [hz, h_fv2]
          simp [veq]

unseal Rat.mul Rat.add Rat.sub Rat.inv in
/-- Witness for claim C9's amended theorem at the percentage-derived value
`0.4237` (a canonicalize output of `"42.37%"`). -/
theorem canonicalize_idempotent_within_bounds_witness :
    isNum (Value.vf (mkRat 4237 10000)) = true
    ∧ (qvalN (Value.vf (mkRat 4237 10000)) = 0 ∨
        (mkRat 1 10000 ≤ qabs (qvalN (Value.vf (mkRat 4237 10000)))
          ∧ qabs (qvalN (Value.vf (mkRat 4237 10000))) ≤ 1000000))
    ∧ veq (format_value (format_value (Value.vf (mkRat 4237 10000))))
        (format_value (Value.vf (mkRat 4237 10000))) = true :=
  ⟨by decide, Or.inr ⟨by decide, by decide⟩,
    canonicalize_idempotent_within_bounds (Value.vf (mkRat 4237 10000)) (by decide)
      (Or.inr ⟨by decide, by decide⟩)⟩

/-- The percentage string whose canonicalization exceeds `1e6`. -/
def c9input : Value := .vs "100000000.01%"

unseal Rat.mul Rat.add Rat.sub Rat.inv in
/-- Claim C9 counterexample: `x := canonicalize("100000000.01%")` is the
numeric value `1000000.0001`; `canonicalize(x)` is the scientific string
`1.00e+06` while `canonicalize(canonicalize(x))` is the float `1000000.0`,
so `canonicalize(canonicalize(x)) == canonicalize(x)` fails for a numeric
value produced by canonicalize. -/
theorem canonicalize_not_idempotent_above_1e6 :
    isNum (format_value c9input) = true
    ∧ qvalN (format_value c9input) = mkRat 10000000001 10000
    ∧ format_value (format_value c9input) = Value.vsci 100 6
    ∧ format_value (format_value (format_value c9input)) = Value.vf 1000000
    ∧ veq (format_value (format_value (format_value c9input)))
        (format_value (format_value c9input)) = false := by
  refine ⟨by decide, by decide, by decide, by decide, by decide⟩

/-! ## `runner.py` — claim C10

`run_analysis_for_aa` prints one JSON object to standard output; the printed
object is modelled by `JsonOut`.  `runner.py` constructs
`ExcelAnalyzerControl()` with zero arguments, but the constructor signature
in `excel_analyzer_control.py` requires the three positional parameters
`excel_path`, `entity_name` and `week_number` with no defaults, so the call
raises `TypeError` before any constructor code runs; the surrounding
`try`/`except` converts it to the error JSON. -/

/-- The JSON object printed by `run_analysis_for_aa`. -/
structure JsonOut where
  success : Bool
  error : String
deriving DecidableEq

/-- The `TypeError` message of the zero-argument constructor call. -/
def initNoArgsError : String :=
  "__init__() missing 3 required positional arguments: " ++
    "'excel_path', 'entity_name', and 'week_number'"

/-- The call `ExcelAnalyzerControl()` as written in `runner.py`: always a
`TypeError`, because the constructor's three positional parameters have no
defaults. -/
def excelAnalyzerControlNoArgs : Except String Unit := .error initNoArgsError

/-- `runner.run_analysis_for_aa` as a function of `sys.argv`: fewer than two
entries print the missing-path error; otherwise the constructor call inside
the `try` raises and the handler prints the exception text.  (The `ok`
branch is unreachable; were it reached, `analyzer.load_excel(path)` would
itself raise `TypeError`, since `load_excel` accepts no positional
argument.) -/
def run_analysis_for_aa (argv : List String) : JsonOut :=
  if argv.length < 2 then ⟨false, "No input file path provided."⟩
  else
    match excelAnalyzerControlNoArgs with
    | .error e => ⟨false, e⟩
    | .ok _ => ⟨false, "load_excel() takes 1 positional argument but 2 were given"⟩

/-- Claim C10: every invocation of the entry point prints a JSON object with
`success: false` and an error message — never a successful result: without
an input-path argument it reports the missing path, and with one the
zero-argument constructor call raises and is converted to the error JSON. -/
theorem runner_always_reports_failure :
    ∀ argv : List String,
      (run_analysis_for_aa argv).success = false
      ∧ (run_analysis_for_aa argv).error ≠ ""
      ∧ (argv.length < 2 →
          (run_analysis_for_aa argv).error = "No input file path provided.")
      ∧ (2 ≤ argv.length → (run_analysis_for_aa argv).error = initNoArgsError) := by
  intro argv
  unfold run_analysis_for_aa
  by_cases h : argv.length < 2
  · rw [if_pos h]
    exact ⟨rfl, by decide, fun _ => rfl, fun h2 => absurd h (not_lt.mpr h2)⟩
  · rw [if_neg h]
    exact ⟨rfl, by decide, fun h1 => absurd h1 h, fun _ => rfl⟩

/-- Witness for claim C10's theorem: a call without an input path and a call
with one. -/
theorem runner_always_reports_failure_witness :
    (run_analysis_for_aa ["runner.py"]).success = false
    ∧ (run_analysis_for_aa ["runner.py"]).error = "No input file path provided."
    ∧ (run_analysis_for_aa ["runner.py", "input.xlsx"]).success = false
    ∧ (run_analysis_for_aa ["runner.py", "input.xlsx"]).error = initNoArgsError :=
  ⟨(runner_always_reports_failure ["runner.py"]).1,
    (runner_always_reports_failure ["runner.py"]).2.2.1 (by decide),
    (runner_always_reports_failure ["runner.py", "input.xlsx"]).1,
    (runner_always_reports_failure ["runner.py", "input.xlsx"]).2.2.2 (by decide)⟩

end CompanyRepo
